import Mathlib

/-!
Verification of `lib/base-document.js` of the camouflage object-document
mapper.  The JavaScript source is embedded shallowly: JS objects become
association lists, JS values become an inductive `JsVal`, class instances
become `Inst` (the proxy target's `_schema` / `_values` maps plus ordinary
own properties), and the asynchronous `populate` is modelled by its
synchronous registration phase plus an explicit promise-settlement order.
-/

namespace Camouflage

/-! ### Association-list primitives (JS object semantics: unique keys,
 insertion order preserved, assignment updates in place). -/

/-- First value stored under key `k`, as JS property lookup on an object. -/
def lookupKey {κ α : Type} [DecidableEq κ] : List (κ × α) → κ → Option α
  | [], _ => none
  | (k', v) :: rest, k => if k' = k then some v else lookupKey rest k

/-- JS property assignment `o[k] = v`: update in place if present, else append. -/
def setKey {κ α : Type} [DecidableEq κ] : List (κ × α) → κ → α → List (κ × α)
  | [], k, v => [(k, v)]
  | (k', v') :: rest, k, v =>
    if k' = k then (k, v) :: rest else (k', v') :: setKey rest k v

/-- JS `delete o[k]`: remove every pair stored under `k`. -/
def eraseKey {κ α : Type} [DecidableEq κ] : List (κ × α) → κ → List (κ × α)
  | [], _ => []
  | (k', v') :: rest, k =>
    if k' = k then eraseKey rest k else (k', v') :: eraseKey rest k

theorem lookupKey_setKey_self {κ α : Type} [DecidableEq κ]
    (m : List (κ × α)) (k : κ) (v : α) : lookupKey (setKey m k v) k = some v := by
  induction m with
  | nil => simp [setKey, lookupKey]
  | cons p rest ih =>
    obtain ⟨k'', v''⟩ := p
    by_cases h : k'' = k <;> simp [setKey, lookupKey, h, ih]

theorem lookupKey_setKey_ne {κ α : Type} [DecidableEq κ]
    (m : List (κ × α)) (k k' : κ) (v : α) (h : k' ≠ k) :
    lookupKey (setKey m k v) k' = lookupKey m k' := by
  induction m with
  | nil => simp [setKey, lookupKey, Ne.symm h]
  | cons p rest ih =>
    obtain ⟨k'', v''⟩ := p
    by_cases hp : k'' = k
    · subst hp
      simp [setKey, lookupKey, Ne.symm h]
    · by_cases hp' : k'' = k' <;> simp [setKey, lookupKey, hp, hp', ih, h]

theorem lookupKey_eraseKey_self {κ α : Type} [DecidableEq κ]
    (m : List (κ × α)) (k : κ) : lookupKey (eraseKey m k) k = none := by
  induction m with
  | nil => simp [eraseKey, lookupKey]
  | cons p rest ih =>
    obtain ⟨k'', v''⟩ := p
    by_cases h : k'' = k <;> simp [eraseKey, lookupKey, h, ih]

theorem lookupKey_eraseKey_ne {κ α : Type} [DecidableEq κ]
    (m : List (κ × α)) (k k' : κ) (h : k' ≠ k) :
    lookupKey (eraseKey m k) k' = lookupKey m k' := by
  induction m with
  | nil => simp [eraseKey, lookupKey]
  | cons p rest ih =>
    obtain ⟨k'', v''⟩ := p
    by_cases hp : k'' = k
    · subst hp
      simp [eraseKey, lookupKey, Ne.symm h, ih]
    · by_cases hp' : k'' = k' <;> simp [eraseKey, lookupKey, hp, hp', ih, h]

theorem eraseKey_of_lookup_none {κ α : Type} [DecidableEq κ]
    (m : List (κ × α)) (k : κ) (h : lookupKey m k = none) : eraseKey m k = m := by
  induction m with
  | nil => simp [eraseKey]
  | cons p rest ih =>
    by_cases hp : p.1 = k
    · simp [lookupKey, hp] at h
    · simp [lookupKey, hp] at h
      simp [eraseKey, hp, ih h]

/-! ### `populate` (static `BaseDocument.populate`, base-document.js lines
 322-400), specialised to array-of-reference key definitions.

 Referenced-type tags and ids are natural numbers.  A document is the list of
 its array-of-reference field values (`d[keyDef.key]`), aligned with a list
 `kds` giving each such field's referenced type.  The backend load
 `type.loadById(id)` resolves to `resolve type id`.

 The JS execution has two phases.  Phase one (synchronous) walks
 `keyDefs.forEach(... documents.forEach(... idList.forEach(...)))`, asking the
 per-call cache for a load promise per `(type, id)` and attaching one push
 callback per occurrence; it then replaces `d[keyDef.key]` by a fresh empty
 array carrying the captured `idList` property.  Phase two runs the attached
 callbacks: all callbacks of one promise run in attachment order when that
 promise settles, and distinct promises settle in some order `sched`.  The
 canonical deterministic run settles promises in first-request order, i.e.
 `sched = loadCalls`. -/

/-- Registration sequence of phase one: one `(type, id)` pair per id
 occurrence, in the exact loop order of the source (key definitions outer,
 documents next, ids innermost). -/
def popRegs (kds : List Nat) (docs : List (List (List Nat))) : List (Nat × Nat) :=
  kds.enum.flatMap fun kt =>
    docs.flatMap fun d => ((d.get? kt.1).getD []).map fun i => (kt.2, i)

/-- The per-call cache of `loadFromCache` (lines 359-372): an association
 from referenced type to the ids already requested for it.  Processing the
 registration sequence, a `(type, id)` pair hits the backend (`loadById`)
 exactly when the id is not yet in that type's inner cache; the emitted list
 is the backend call sequence. -/
def runCacheN : List (Nat × Nat) → List (Nat × List Nat) → List (Nat × Nat)
  | [], _ => []
  | (t, i) :: rs, cache =>
    let ids := (lookupKey cache t).getD []
    if i ∈ ids then runCacheN rs cache
    else (t, i) :: runCacheN rs (setKey cache t (ids ++ [i]))

/-- Backend `loadById` invocations issued by one `populate(docs)` call,
 in order; the cache starts empty because it is created inside the call. -/
def loadCalls (kds : List Nat) (docs : List (List (List Nat))) : List (Nat × Nat) :=
  runCacheN (popRegs kds docs) []

/-- Result of one array-of-reference field after populate: the array the
 push callbacks built, and the `idList` property attached at line 385. -/
structure PopArr where
  items : List Nat
  idList : List Nat
  deriving DecidableEq, Repr

/-- Contents of the result array for a field of referenced type `t` whose
 original id list was `ids`, after all promises settled in order `sched`:
 when the promise of pair `p` settles, its callbacks for this field push
 `resolve` of `p` once per occurrence of `p.2` in `ids`, in occurrence
 order. -/
def popItems (sched : List (Nat × Nat)) (t : Nat) (ids : List Nat)
    (resolve : Nat → Nat → Nat) : List Nat :=
  sched.flatMap fun p =>
    if p.1 = t then ((ids.filter fun i => i == p.2).map (resolve p.1)) else []

/-- Populate's effect on one document `d` (its array-of-reference fields,
 aligned with `kds`), under settlement order `sched`. -/
def populateDoc (kds : List Nat) (d : List (List Nat))
    (sched : List (Nat × Nat)) (resolve : Nat → Nat → Nat) : List PopArr :=
  (kds.zip d).map fun ti => ⟨popItems sched ti.1 ti.2 resolve, ti.2⟩

/-- Dedup bookkeeping: how many backend calls `runCacheN` emits for one
 `(type, id)` pair, given the cache contents on entry. -/
theorem count_runCacheN (rs : List (Nat × Nat)) (cache : List (Nat × List Nat))
    (t x : Nat) :
    (runCacheN rs cache).count (t, x) =
      if (t, x) ∈ rs ∧ x ∉ (lookupKey cache t).getD [] then 1 else 0 := by
  induction rs generalizing cache with
  | nil => simp [runCacheN]
  | cons r rs ih =>
    obtain ⟨t', i'⟩ := r
    by_cases hmem : i' ∈ (lookupKey cache t').getD []
    · rw [runCacheN]
      simp only [hmem, if_pos]
      rw [ih]
      by_cases hpair : (t, x) = (t', i')
      · obtain ⟨ht, hx⟩ := Prod.mk.injEq .. ▸ hpair
        subst ht; subst hx
        simp [hmem]
      · have : ((t, x) ∈ (t', i') :: rs) ↔ ((t, x) ∈ rs) := by
          simp [hpair]
        simp only [this]
    · rw [runCacheN]
      simp only [hmem, if_neg, if_false]
      rw [List.count_cons, ih]
      by_cases hpair : (t, x) = (t', i')
      · obtain ⟨ht, hx⟩ := Prod.mk.injEq .. ▸ hpair
        subst ht; subst hx
        have hlook : (lookupKey (setKey cache t (((lookupKey cache t).getD []) ++ [x])) t).getD []
            = ((lookupKey cache t).getD []) ++ [x] := by
          rw [lookupKey_setKey_self]; rfl
        simp [hlook, hmem]
      · have hne : ¬((t, x) = (t', i')) := hpair
        have hmem' : ((t, x) ∈ (t', i') :: rs) ↔ ((t, x) ∈ rs) := by simp [hpair]
        by_cases htt : t = t'
        · subst htt
          have hxne : x ≠ i' := by
            intro h; exact hpair (by rw [h])
          have hlook : (lookupKey (setKey cache t (((lookupKey cache t).getD []) ++ [i'])) t).getD []
              = ((lookupKey cache t).getD []) ++ [i'] := by
            rw [lookupKey_setKey_self]; rfl
          simp [hlook, hmem', hxne, hne, Ne.symm hxne]
        · have hlook : lookupKey (setKey cache t' (((lookupKey cache t').getD []) ++ [i'])) t
              = lookupKey cache t := lookupKey_setKey_ne _ _ _ _ htt
          simp [hlook, hmem', hne, Ne.symm htt]

/-- Backend-call counts for a whole populate call. -/
theorem count_loadCalls (kds : List Nat) (docs : List (List (List Nat))) (t x : Nat) :
    (loadCalls kds docs).count (t, x) =
      if (t, x) ∈ popRegs kds docs then 1 else 0 := by
  rw [loadCalls, count_runCacheN]
  simp [lookupKey]

theorem runCacheN_nodup (rs : List (Nat × Nat)) (cache : List (Nat × List Nat)) :
    (runCacheN rs cache).Nodup := by
  induction rs generalizing cache with
  | nil => simp [runCacheN]
  | cons r rs ih =>
    obtain ⟨t, i⟩ := r
    by_cases hmem : i ∈ (lookupKey cache t).getD []
    · rw [runCacheN]
      simpa [hmem] using ih cache
    · rw [runCacheN]
      simp only [hmem, if_neg, if_false]
      refine List.Nodup.cons ?_ (ih _)
      intro hin
      have hcount := count_runCacheN rs
        (setKey cache t (((lookupKey cache t).getD []) ++ [i])) t i
      have hlook : (lookupKey (setKey cache t (((lookupKey cache t).getD []) ++ [i])) t).getD []
          = ((lookupKey cache t).getD []) ++ [i] := by
        rw [lookupKey_setKey_self]; rfl
      rw [hlook] at hcount
      simp at hcount
      have : (0 : Nat) < List.count (t, i)
          (runCacheN rs (setKey cache t (((lookupKey cache t).getD []) ++ [i]))) :=
        List.count_pos_iff.mpr hin
      omega

theorem loadCalls_nodup (kds : List Nat) (docs : List (List (List Nat))) :
    (loadCalls kds docs).Nodup := runCacheN_nodup _ _

theorem mem_loadCalls (kds : List Nat) (docs : List (List (List Nat)))
    (t x : Nat) (h : (t, x) ∈ popRegs kds docs) : (t, x) ∈ loadCalls kds docs := by
  have := count_loadCalls kds docs t x
  rw [if_pos h] at this
  exact List.count_pos_iff.mp (by omega)

/-- Grouping a list by a duplicate-free enumeration of (at least) its
 elements is a permutation of the list. -/
theorem flatMap_filter_perm (ds : List Nat) (f : List Nat)
    (hnd : ds.Nodup) (hall : ∀ x ∈ f, x ∈ ds) :
    (ds.flatMap fun i => f.filter fun y => y == i).Perm f := by
  induction ds generalizing f with
  | nil =>
    have : f = [] := List.eq_nil_iff_forall_not_mem.mpr fun x hx => by
      simpa using hall x hx
    simp [this]
  | cons i ds ih =>
    have hni : i ∉ ds := (List.nodup_cons.mp hnd).1
    have hnd' : ds.Nodup := (List.nodup_cons.mp hnd).2
    rw [List.flatMap_cons]
    have hstep : (ds.flatMap fun j => f.filter fun y => y == j) =
        ds.flatMap fun j => (f.filter fun y => !(y == i)).filter fun y => y == j := by
      refine List.flatMap_congr fun j hj => ?_
      have hij : j ≠ i := fun h => hni (h ▸ hj)
      rw [List.filter_filter]
      refine (List.filter_congr fun a _ => ?_).symm
      by_cases haj : a = j <;> simp [haj, hij]
    rw [hstep]
    have hperm' := ih (f.filter fun y => !(y == i)) hnd' (fun x hx => by
      have hxf : x ∈ f := List.mem_of_mem_filter hx
      have hxi : ¬(x == i) = true := by
        have := List.of_mem_filter hx
        simpa using this
      have : x ∈ i :: ds := hall x hxf
      rcases List.mem_cons.mp this with h | h
      · exact absurd (by simp [h]) hxi
      · exact h)
    exact List.Perm.trans (List.Perm.append_left _ hperm') (List.filter_append_perm _ f)

/-- Phase-two pushes, regrouped: the result array is the settlement-order
 enumeration of `sched`'s ids of type `t`, each contributing its occurrences
 in the original id list. -/
theorem popItems_eq (sched : List (Nat × Nat)) (t : Nat) (ids : List Nat)
    (resolve : Nat → Nat → Nat) :
    popItems sched t ids resolve =
      ((sched.filter fun p => p.1 == t).map Prod.snd).flatMap
        fun i => (ids.filter fun y => y == i).map (resolve t) := by
  induction sched with
  | nil => simp [popItems]
  | cons p rest ih =>
    obtain ⟨pt, pi⟩ := p
    by_cases hp : pt = t
    · subst hp
      simp only [popItems, List.flatMap_cons, List.filter_cons] at *
      simp [ih, popItems]
    · simp only [popItems, List.flatMap_cons, List.filter_cons] at *
      simp [hp, ih, popItems]

/-- The settled array content is a permutation of the loads of the original
 id list, whenever the settlement order is duplicate-free and covers every
 registered pair. -/
theorem popItems_perm (sched : List (Nat × Nat)) (t : Nat) (ids : List Nat)
    (resolve : Nat → Nat → Nat) (hnd : sched.Nodup)
    (hall : ∀ i ∈ ids, (t, i) ∈ sched) :
    (popItems sched t ids resolve).Perm (ids.map (resolve t)) := by
  rw [popItems_eq]
  rw [← List.map_flatMap]
  refine List.Perm.map _ ?_
  refine flatMap_filter_perm _ _ ?_ ?_
  · refine List.Nodup.map_on ?_ (List.Nodup.filter _ hnd)
    intro x hx y hy hxy
    have hx1 : x.1 = t := by simpa using List.of_mem_filter hx
    have hy1 : y.1 = t := by simpa using List.of_mem_filter hy
    exact Prod.ext (hx1.trans hy1.symm) hxy
  · intro x hx
    have hmem : (t, x) ∈ sched.filter fun p => p.1 == t := by
      refine List.mem_filter.mpr ⟨hall x hx, by simp⟩
    exact (List.mem_map).mpr ⟨(t, x), hmem, rfl⟩

theorem mem_popRegs (kds : List Nat) (docs : List (List (List Nat)))
    (d : List (List Nat)) (k t : Nat) (ids : List Nat) (i : Nat)
    (hd : d ∈ docs) (ht : kds.get? k = some t) (hi : d.get? k = some ids)
    (hig : i ∈ ids) : (t, i) ∈ popRegs kds docs := by
  have hkt : (k, t) ∈ kds.enum := by
    have := List.get?_enum kds k
    rw [ht] at this
    exact List.get?_mem this
  refine List.mem_flatMap.mpr ⟨(k, t), hkt, ?_⟩
  refine List.mem_flatMap.mpr ⟨d, hd, ?_⟩
  refine List.mem_map.mpr ⟨i, ?_, rfl⟩
  have hge : d[k]? = some ids := by
    rw [← List.get?_eq_getElem?]; exact hi
  simp [hge, hig]

/-- C2 (as claimed, order part): FALSE on the code.  Two documents listing
 the same two referenced ids in opposite orders: the push callbacks build
 both arrays in promise-settlement order, so under the canonical settlement
 (first-request order, `loadCalls`) the second document's array is `[1, 2]`
 while its retained `idList` is `[2, 1]`; under the only other settlement
 order the first document's array disagrees instead.  With `resolve` the
 identity, order preservation would force `items = idList`. -/
theorem populate_order_cex :
    (populateDoc [0] [[2, 1]] (loadCalls [0] [[[1, 2]], [[2, 1]]]) fun _ i => i) =
      [⟨[1, 2], [2, 1]⟩] ∧
    (populateDoc [0] [[1, 2]] [(0, 2), (0, 1)] fun _ i => i) =
      [⟨[2, 1], [1, 2]⟩] ∧
    ([1, 2] : List Nat) ≠ [2, 1] := by
  refine ⟨by decide, by decide, by decide⟩

/-- C2 (amended): for every array-of-reference field, populate() replaces
 the stored id list with an array containing exactly the resolved documents
 of the stored ids (a permutation of them, ordered by promise settlement
 rather than necessarily by the original list), and the original id list
 remains recoverable as the `idList` property attached to the resulting
 array. -/
theorem populate_array_field (kds : List Nat) (docs : List (List (List Nat)))
    (resolve : Nat → Nat → Nat) (d : List (List Nat)) (k t : Nat) (ids : List Nat)
    (hd : d ∈ docs) (ht : kds.get? k = some t) (hi : d.get? k = some ids) :
    (populateDoc kds d (loadCalls kds docs) resolve).get? k =
      some ⟨popItems (loadCalls kds docs) t ids resolve, ids⟩ ∧
    (popItems (loadCalls kds docs) t ids resolve).Perm (ids.map (resolve t)) := by
  constructor
  · rw [populateDoc, List.get?_map]
    have hz : (kds.zip d).get? k = some (t, ids) :=
      (List.get?_zip_eq_some _ _ _ _).mpr ⟨ht, hi⟩
    rw [hz]
    rfl
  · refine popItems_perm _ _ _ _ (loadCalls_nodup _ _) fun i hig => ?_
    exact mem_loadCalls _ _ _ _ (mem_popRegs kds docs d k t ids i hd ht hi hig)

theorem populate_array_field_witness :
    (populateDoc [3] [[7, 7, 8]] (loadCalls [3] [[[7, 7, 8]]]) fun t i => t * 100 + i).get? 0 =
      some ⟨popItems (loadCalls [3] [[[7, 7, 8]]]) 3 [7, 7, 8] fun t i => t * 100 + i, [7, 7, 8]⟩ ∧
    (popItems (loadCalls [3] [[[7, 7, 8]]]) 3 [7, 7, 8] fun t i => t * 100 + i).Perm
      ([7, 7, 8].map ((fun t i => t * 100 + i) 3)) :=
  populate_array_field [3] [[[7, 7, 8]]] (fun t i => t * 100 + i) [[7, 7, 8]] 0 3 [7, 7, 8]
    (by decide) (by decide) (by decide)

/-- C3: within one populate(docs) call, backend loads are deduplicated by a
 per-call cache keyed first by referenced type then by id: any number of
 input documents referencing the same foreign `(type, id)` pair trigger
 exactly one backend `loadById` invocation for that pair. -/
theorem populate_dedup (kds : List Nat) (docs : List (List (List Nat)))
    (t x : Nat) (h : (t, x) ∈ popRegs kds docs) :
    (loadCalls kds docs).count (t, x) = 1 := by
  rw [count_loadCalls, if_pos h]

theorem populate_dedup_witness :
    (loadCalls [5] [[[9]], [[9]], [[9]]]).count (5, 9) = 1 :=
  populate_dedup [5] [[[9]], [[9]], [[9]]] 5 9 (by decide)

/-! ### Data model: schema types, JS values, document instances.

 `FType` is the closed set of schema `type` tags (`String`, `Number`,
 `Boolean`, `Date`, `Buffer`, the backend's native-id class, Document and
 EmbeddedDocument subtypes identified by a class id, and one-level arrays).
 A `JsVal` is a runtime JS value; `JsVal.inst embedded i` is a (proxied)
 document instance — `embedded = true` iff `documentClass()` returns
 `'embedded'`.  An `Inst` is the proxy target: the `_schema` map, the
 `_values` map, and the object's remaining ordinary own properties.

 A schema entry carries the normalized declaration
 `{type, default?, choices?, min?, max?, match?, validate?, private?}`.
 The regex `match` is modelled as its test predicate on strings; the custom
 `validate` function (whose domain would make the inductive ill-formed) is
 an index into an external table carried by `Ctx`; a `default` factory is
 modelled by the value it produces. -/

inductive FType where
  | str
  | num
  | bool
  | date
  | buf
  | objectId
  | docT (c : Nat)
  | embT (c : Nat)
  | arrayOf (elemT : FType)
  deriving DecidableEq, Repr

mutual
inductive JsVal where
  | null
  | undefined
  | num (n : Int)
  | str (s : String)
  | bool (b : Bool)
  | date (ts : Int)
  | buf
  | arr (elems : List JsVal)
  | obj (entries : List (String × JsVal))
  | inst (embedded : Bool) (i : Inst)

inductive Inst where
  | mk (schema : List (String × SchemaEntry)) (values : List (String × JsVal))
       (own : List (String × JsVal))

inductive SchemaEntry where
  | mk (type : FType) (dflt : Option JsVal) (choices : Option (List JsVal))
       (minB : Option JsVal) (maxB : Option JsVal)
       (matchR : Option (String → Bool)) (validator : Option Nat)
       (priv : Bool)
end

def Inst.schema : Inst → List (String × SchemaEntry)
  | .mk s _ _ => s

def Inst.values : Inst → List (String × JsVal)
  | .mk _ v _ => v

def Inst.own : Inst → List (String × JsVal)
  | .mk _ _ o => o

@[simp] theorem Inst.schema_mk (s : List (String × SchemaEntry))
    (vs own : List (String × JsVal)) : (Inst.mk s vs own).schema = s := rfl

@[simp] theorem Inst.values_mk (s : List (String × SchemaEntry))
    (vs own : List (String × JsVal)) : (Inst.mk s vs own).values = vs := rfl

@[simp] theorem Inst.own_mk (s : List (String × SchemaEntry))
    (vs own : List (String × JsVal)) : (Inst.mk s vs own).own = own := rfl

def SchemaEntry.type : SchemaEntry → FType
  | .mk t _ _ _ _ _ _ _ => t

def SchemaEntry.dflt : SchemaEntry → Option JsVal
  | .mk _ d _ _ _ _ _ _ => d

def SchemaEntry.choices : SchemaEntry → Option (List JsVal)
  | .mk _ _ c _ _ _ _ _ => c

def SchemaEntry.minB : SchemaEntry → Option JsVal
  | .mk _ _ _ m _ _ _ _ => m

def SchemaEntry.maxB : SchemaEntry → Option JsVal
  | .mk _ _ _ _ m _ _ _ => m

def SchemaEntry.matchR : SchemaEntry → Option (String → Bool)
  | .mk _ _ _ _ _ r _ _ => r

def SchemaEntry.validator : SchemaEntry → Option Nat
  | .mk _ _ _ _ _ _ i _ => i

def SchemaEntry.priv : SchemaEntry → Bool
  | .mk _ _ _ _ _ _ _ p => p

/-- External context: the table of custom validator predicates, the model
 class registry (class id to normalized constructor field declarations),
 which class ids are EmbeddedDocument subtypes, and the backend contract
 (`isNativeId`, `toNativeId`) plus the prototype-chain membership test used
 by the proxy `has` trap for non-schema names other than `id`. -/
structure Ctx where
  customs : Nat → JsVal → Bool
  classes : Nat → List (String × SchemaEntry)
  embCls : Nat → Bool
  isNativeId : JsVal → Bool
  toNativeId : JsVal → JsVal
  protoHas : String → Bool

/-- JS truthiness of a value. -/
def jsTruthy : JsVal → Bool
  | .null => false
  | .undefined => false
  | .bool b => b
  | .num n => n != 0
  | .str s => s != ""
  | _ => true

/-- `isNumber` of lib/validate.js restricted to the modelled values:
 a primitive number. -/
def isNumberV : JsVal → Bool
  | .num _ => true
  | _ => false

/-- `isString` of lib/validate.js: a primitive string. -/
def isStringV : JsVal → Bool
  | .str _ => true
  | _ => false

/-- JS strict equality `===` on the modelled values: structural on
 primitives; object values (arrays, plain objects, instances) compare by
 reference, which distinct stored values never share, hence `false`. -/
def jsEq : JsVal → JsVal → Bool
  | .null, .null => true
  | .undefined, .undefined => true
  | .num a, .num b => a == b
  | .str a, .str b => a == b
  | .bool a, .bool b => a == b
  | _, _ => false

/-- JS `a < b` for the comparisons `validate()` performs against `min`:
 same-kind numbers, strings and dates compare by their order; any other
 comparison is `false` (JS yields `false` via `NaN` for incomparable
 kinds). -/
def jsLt : JsVal → JsVal → Bool
  | .num a, .num b => a < b
  | .str a, .str b => a < b
  | .date a, .date b => a < b
  | _, _ => false

/-- JS `a > b`, used against `max`. -/
def jsGt (a b : JsVal) : Bool := jsLt b a

/-- `type` is an array declaration `[T]`. -/
def isArrayT : FType → Bool
  | .arrayOf _ => true
  | _ => false

/-- Modelled from the spec: `isValidType` lives in lib/validate.js, which is
 not part of the sources; spec section 4.1 states that `null`/`undefined`
 are always valid, that an array type validates every element against the
 element type with no partial credit, that each primitive kind accepts its
 own runtime kind, and that Document/EmbeddedDocument subtypes and the
 backend native-id type accept their instances (a reference field stores
 either a resolved instance or a bare id, spec section 3). -/
def isValidType (ctx : Ctx) : JsVal → FType → Bool
  | .null, _ => true
  | .undefined, _ => true
  | .arr xs, .arrayOf t0 => xs.all fun x => isValidType ctx x t0
  | _, .arrayOf _ => false
  | .str _, .str => true
  | .num _, .num => true
  | .bool _, .bool => true
  | .date _, .date => true
  | .buf, .buf => true
  | v, .objectId => ctx.isNativeId v
  | .inst false _, .docT _ => true
  | v, .docT _ => ctx.isNativeId v || isStringV v
  | .inst true _, .embT _ => true
  | _, _ => false
  termination_by v t => sizeOf t
  decreasing_by all_goals (simp_wf; try omega)

/-- Modelled from the spec: `isInChoices` lives in lib/validate.js, which is
 not part of the sources; spec section 4.1 exposes it as the
 enumerated-choice membership test, and (since `validate()` calls it on
 every field, lines 194-197) a field with no declared choices must pass. -/
def isInChoices (choices : Option (List JsVal)) (v : JsVal) : Bool :=
  match choices with
  | none => true
  | some cs => cs.any fun c => jsEq c v

/-- Which constraint check of `validate()` failed. -/
inductive CheckKind where
  | typeMismatch
  | patternMismatch
  | choiceViolation
  | minViolation
  | maxViolation
  | customViolation
  | missingEntry
  deriving DecidableEq, Repr

/-- A `validate()` error: the thrown message names the collection, the
 offending field, and the offending value (base-document.js lines 185-211);
 the message text itself is not modelled, its content is. -/
structure VErr where
  fieldName : String
  kind : CheckKind
  value : JsVal

/-- The character content of a string value (what `match.test` receives). -/
def strVal : JsVal → String
  | .str s => s
  | _ => ""

/-- The six per-field checks of `validate()` (lines 169-212), in source
 order.  `missingEntry` models the TypeError JS raises at line 169 when a
 values key has no schema entry (unreachable through the public API). -/
def validateVal (ctx : Ctx) (k : String) (e : SchemaEntry) (v : JsVal) :
    Except VErr Unit :=
  if !(isValidType ctx v e.type) then
    .error ⟨k, .typeMismatch, v⟩
  else if e.matchR.isSome && isStringV v
      && !((e.matchR.getD fun _ => true) (strVal v)) then
    .error ⟨k, .patternMismatch, v⟩
  else if !(isInChoices e.choices v) then
    .error ⟨k, .choiceViolation, v⟩
  else if (match e.minB with | some m => jsTruthy m && jsLt v m | none => false) then
    .error ⟨k, .minViolation, v⟩
  else if (match e.maxB with | some m => jsTruthy m && jsGt v m | none => false) then
    .error ⟨k, .maxViolation, v⟩
  else if (match e.validator with | some idx => !(ctx.customs idx v) | none => false) then
    .error ⟨k, .customViolation, v⟩
  else
    .ok ()

mutual
/-- `validate()`'s walk over `_.keys(this._values)` (lines 159-213): an
 embedded-document value recurses into its own `validate()` and skips every
 parent-schema check; any other value runs the six checks against its
 schema entry.  The first failure aborts the whole pass (a JS `throw`
 escapes the `forEach`). -/
def validateVals (ctx : Ctx) (s : List (String × SchemaEntry)) :
    List (String × JsVal) → Except VErr Unit
  | [] => .ok ()
  | (k, v) :: rest =>
    match v with
    | .inst true i => do
      validateInst ctx i
      validateVals ctx s rest
    | v =>
      match lookupKey s k with
      | none => .error ⟨k, .missingEntry, v⟩
      | some e => do
        validateVal ctx k e v
        validateVals ctx s rest

def validateInst (ctx : Ctx) : Inst → Except VErr Unit
  | .mk s vs _ => validateVals ctx s vs
end

/-- The declared type of a values key, read off the schema map. -/
def typeLookup (s : List (String × SchemaEntry)) (k : String) : Option FType :=
  (lookupKey s k).map SchemaEntry.type

mutual
/-- One value's canonicalization (lines 224-235): a number stored in a
 `Date`-typed field becomes a date; an embedded document canonicalizes
 itself; everything else is untouched. -/
def canonVal (t? : Option FType) : JsVal → JsVal
  | .num n => if t? = some FType.date then .date n else .num n
  | .inst true i => .inst true (canonInst i)
  | .inst false i => .inst false i
  | .null => .null
  | .undefined => .undefined
  | .str s => .str s
  | .bool b => .bool b
  | .date d => .date d
  | .buf => .buf
  | .arr xs => .arr xs
  | .obj es => .obj es

def canonVals (s : List (String × SchemaEntry)) :
    List (String × JsVal) → List (String × JsVal)
  | [] => []
  | (k, v) :: rest => (k, canonVal (typeLookup s k) v) :: canonVals s rest

/-- `canonicalize()` (lines 221-236): rewrite every value of the values
 map in place; the schema map and ordinary properties are untouched. -/
def canonInst : Inst → Inst
  | .mk s vs own => .mk s (canonVals s vs) own
end

/-- A trivial context: every custom validator passes, no classes, nothing
 is a native id, no prototype names. -/
def ctxTriv : Ctx where
  customs := fun _ _ => true
  classes := fun _ => []
  embCls := fun _ => false
  isNativeId := fun _ => false
  toNativeId := fun v => v
  protoHas := fun _ => false

/-- The implicit `_id` schema entry installed by the constructor
 (line 77): `{ type: DB().nativeIdType() }`. -/
def idEntry : SchemaEntry :=
  .mk .objectId none none none none none none false

/-- A `Number`-typed field declaration carrying optional numeric `min` and
 `max` bounds and no other constraint. -/
def numEntry (mi ma : Option Int) : SchemaEntry :=
  .mk .num none none (mi.map JsVal.num) (ma.map JsVal.num) none none false

/-- A document whose schema declares `num : {type: Number, min?, max?}`
 and whose values map stores `num = n`. -/
def numInst (mi ma : Option Int) (n : Int) : Inst :=
  .mk [("_id", idEntry), ("num", numEntry mi ma)] [("num", .num n)] []

/-- Amended-claim min violation: the declared bound exists, is nonzero
 (truthy), and the value is strictly below it. -/
def minViolB (mi : Option Int) (n : Int) : Bool :=
  match mi with
  | some a => !(a == 0) && decide (n < a)
  | none => false

/-- Amended-claim max violation: the declared bound exists, is nonzero
 (truthy), and the value is strictly above it. -/
def maxViolB (ma : Option Int) (n : Int) : Bool :=
  match ma with
  | some b => !(b == 0) && decide (b < n)
  | none => false

theorem except_bind_pure {ε : Type} (x : Except ε Unit) :
    (x >>= fun _ => Except.ok ()) = x := by
  rcases x with e | u
  · rfl
  · cases u; rfl

/-- C1 (as claimed): FALSE on the code for a declared bound of 0.  The
 min/max checks are guarded by JS truthiness of the bound itself
 (lines 199, 204: `if (schema.min && value < schema.min)`), so with
 `{num: {type: Number, min: 0}}` and `num = -5`, although `-5 < 0`,
 `validate()` raises no error. -/
theorem validate_min_zero_cex :
    validateInst ctxTriv (numInst (some 0) none (-5)) = .ok () ∧ ((-5 : Int) < 0) := by
  constructor
  · simp [validateInst, validateVals, validateVal, numInst, numEntry, idEntry,
      lookupKey, isValidType, isInChoices, jsTruthy, jsLt, jsGt, isStringV,
      SchemaEntry.type, SchemaEntry.choices, SchemaEntry.minB, SchemaEntry.maxB,
      SchemaEntry.matchR, SchemaEntry.validator, Bind.bind, Except.bind]
  · decide

/-- C1 (amended): for a `Number` field with declared numeric bounds,
 `validate()` throws the min (resp. max) error — naming the field and the
 offending value — exactly when the declared bound is nonzero (truthy) and
 the stored value is strictly below `min` (resp. strictly above `max`); a
 bound declared as 0 is skipped entirely, and values within the bounds
 pass.  In particular `{num: {type: Number, max: 10}}` rejects `num = 26`
 and passes `num = 5`. -/
theorem validate_minmax (ctx : Ctx) (mi ma : Option Int) (n : Int) :
    validateInst ctx (numInst mi ma n) =
      if minViolB mi n then .error ⟨"num", .minViolation, .num n⟩
      else if maxViolB ma n then .error ⟨"num", .maxViolation, .num n⟩
      else .ok () := by
  rcases mi with _ | a <;> rcases ma with _ | b <;>
    simp [validateInst, validateVals, validateVal, numInst, numEntry, idEntry,
      minViolB, maxViolB, lookupKey, isValidType, isInChoices, jsTruthy, jsLt,
      jsGt, isStringV, SchemaEntry.type, SchemaEntry.choices, SchemaEntry.minB,
      SchemaEntry.maxB, SchemaEntry.matchR, SchemaEntry.validator,
      except_bind_pure]

/-- The claim's own example, evaluated: `max: 10` rejects `26` with an
 error naming the field and the value, and passes `5`. -/
theorem validate_minmax_example :
    validateInst ctxTriv (numInst none (some 10) 26) =
      .error ⟨"num", .maxViolation, .num 26⟩ ∧
    validateInst ctxTriv (numInst none (some 10) 5) = .ok () := by
  constructor <;>
    simp [validateInst, validateVals, validateVal, numInst, numEntry, idEntry,
      lookupKey, isValidType, isInChoices, jsTruthy, jsLt, jsGt, isStringV,
      SchemaEntry.type, SchemaEntry.choices, SchemaEntry.minB, SchemaEntry.maxB,
      SchemaEntry.matchR, SchemaEntry.validator, Bind.bind, Except.bind]

/-- Whether a runtime value is an embedded-document instance
 (`value.documentClass && value.documentClass() === 'embedded'`). -/
def isEmbV : JsVal → Bool
  | .inst true _ => true
  | _ => false

/-- Spec-side ordering of the constraint checks, each evaluated on its own:
 type compatibility, then regex/pattern (string values only), then
 enumerated choices, then minimum, then maximum, then the custom
 predicate. -/
def checkSeq (ctx : Ctx) (k : String) (e : SchemaEntry) (v : JsVal) :
    List (Option VErr) :=
  [ if !(isValidType ctx v e.type) then some ⟨k, .typeMismatch, v⟩ else none,
    if e.matchR.isSome && isStringV v
        && !((e.matchR.getD fun _ => true) (strVal v)) then
      some ⟨k, .patternMismatch, v⟩ else none,
    if !(isInChoices e.choices v) then some ⟨k, .choiceViolation, v⟩ else none,
    if (match e.minB with | some m => jsTruthy m && jsLt v m | none => false) then
      some ⟨k, .minViolation, v⟩ else none,
    if (match e.maxB with | some m => jsTruthy m && jsGt v m | none => false) then
      some ⟨k, .maxViolation, v⟩ else none,
    if (match e.validator with | some idx => !(ctx.customs idx v) | none => false) then
      some ⟨k, .customViolation, v⟩ else none ]

/-- First hit of an ordered check sequence. -/
def firstSome {α : Type} : List (Option α) → Option α
  | [] => none
  | some a :: _ => some a
  | none :: rest => firstSome rest

/-- Unfolding of one `validate()` loop step on a non-embedded value whose
 schema entry exists. -/
theorem validateVals_cons_nonemb (ctx : Ctx) (s : List (String × SchemaEntry))
    (k : String) (v : JsVal) (rest : List (String × JsVal)) (e : SchemaEntry)
    (hemb : isEmbV v = false) (hlook : lookupKey s k = some e) :
    validateVals ctx s ((k, v) :: rest) =
      validateVal ctx k e v >>= fun _ => validateVals ctx s rest := by
  cases v
  case inst b i =>
    cases b
    case true => simp [isEmbV] at hemb
    case false => simp [validateVals, hlook]
  all_goals simp [validateVals, hlook]

/-- C4: on every non-embedded field, `validate()` reports exactly the first
 violated check of the ordered sequence type, pattern, choices, min, max,
 custom — later checks are not consulted once one fails — and a failing
 field aborts the whole pass immediately, so at most one violation is
 reported per `validate()` call. -/
theorem validate_check_order (ctx : Ctx) (k : String) (e : SchemaEntry) (v : JsVal)
    (s : List (String × SchemaEntry)) (rest : List (String × JsVal)) :
    (validateVal ctx k e v =
      match firstSome (checkSeq ctx k e v) with
      | some err => .error err
      | none => .ok ()) ∧
    (isEmbV v = false → lookupKey s k = some e →
      ((∀ err, validateVal ctx k e v = .error err →
          validateVals ctx s ((k, v) :: rest) = .error err) ∧
       (validateVal ctx k e v = .ok () →
          validateVals ctx s ((k, v) :: rest) = validateVals ctx s rest))) := by
  constructor
  · rw [validateVal, checkSeq]
    split_ifs <;> simp_all [firstSome]
  · intro hemb hlook
    rw [validateVals_cons_nonemb ctx s k v rest e hemb hlook]
    constructor
    · intro err he
      rw [he]
      rfl
    · intro ho
      rw [ho]
      rfl

/-- The per-field check declaration used in the closed instantiations:
 `{type: Number, choices: [1], max: 3}`. -/
def egEntry : SchemaEntry :=
  .mk .num none (some [.num 1]) none (some (.num 3)) none none false

/-- Closed instantiation of `validate_check_order` at a concrete field. -/
theorem validate_check_order_witness :
    (validateVal ctxTriv "num" egEntry (.num 1) =
      match firstSome (checkSeq ctxTriv "num" egEntry (.num 1)) with
      | some err => .error err
      | none => .ok ()) ∧
    validateVals ctxTriv [("num", egEntry)] [("num", .num 1)] =
      validateVals ctxTriv [("num", egEntry)] [] :=
  ⟨(validate_check_order ctxTriv "num" egEntry (.num 1) [("num", egEntry)] []).1,
   ((validate_check_order ctxTriv "num" egEntry (.num 1) [("num", egEntry)] []).2
      (by simp [isEmbV]) (by simp [lookupKey])).2
      (by simp [validateVal, egEntry, isValidType, isInChoices, jsEq, jsTruthy,
        jsLt, jsGt, isStringV, SchemaEntry.type, SchemaEntry.choices,
        SchemaEntry.minB, SchemaEntry.maxB, SchemaEntry.matchR,
        SchemaEntry.validator])⟩

/-- C7: an embedded-document value validates itself: the parent's
 `validate()` recurses into the embedded document's own `validate()` —
 its failure aborts the parent's pass with the embedded document's error,
 its success continues with the remaining fields — and none of the
 parent-schema checks are consulted for that field: the outcome is the
 same under any parent schema whatsoever. -/
theorem validate_embedded_skip (ctx : Ctx) (s s' : List (String × SchemaEntry))
    (k : String) (i : Inst) (rest : List (String × JsVal)) :
    (∀ err, validateInst ctx i = .error err →
      validateVals ctx s ((k, .inst true i) :: rest) = .error err) ∧
    (validateInst ctx i = .ok () →
      validateVals ctx s ((k, .inst true i) :: rest) = validateVals ctx s rest) ∧
    validateVals ctx s' [(k, .inst true i)] = validateVals ctx s [(k, .inst true i)] := by
  refine ⟨fun err he => ?_, fun ho => ?_, ?_⟩
  · simp [validateVals, he, Bind.bind, Except.bind]
  · simp [validateVals, ho, Bind.bind, Except.bind]
  · simp [validateVals]

/-- Closed instantiation of `validate_embedded_skip`: an embedded document
 violating its own schema aborts the parent's validation with that error,
 under a parent schema declaring nothing about the field. -/
theorem validate_embedded_skip_witness :
    validateVals ctxTriv [] [("emb", .inst true (numInst none (some 10) 26))] =
      .error ⟨"num", .maxViolation, .num 26⟩ :=
  (validate_embedded_skip ctxTriv [] [] "emb" (numInst none (some 10) 26) []).1
    ⟨"num", .maxViolation, .num 26⟩ (validate_minmax_example).1

theorem sizeOf_pos_jsval (v : JsVal) : 0 < sizeOf v := by
  cases v <;> simp_arith

/-- Simultaneous idempotence of the three canonicalization functions, by
 strong induction on size. -/
theorem canon_idem_aux (n : Nat) :
    (∀ (t? : Option FType) (v : JsVal), sizeOf v ≤ n →
      canonVal t? (canonVal t? v) = canonVal t? v) ∧
    (∀ (s : List (String × SchemaEntry)) (vs : List (String × JsVal)), sizeOf vs ≤ n →
      canonVals s (canonVals s vs) = canonVals s vs) ∧
    (∀ i : Inst, sizeOf i ≤ n → canonInst (canonInst i) = canonInst i) := by
  induction n using Nat.strong_induction_on with
  | _ n ih =>
    refine ⟨?_, ?_, ?_⟩
    · intro t? v hv
      cases v with
      | num n' =>
        by_cases ht : t? = some FType.date <;> simp [canonVal, ht]
      | inst b i =>
        cases b with
        | false => simp [canonVal]
        | true =>
          have hsz : sizeOf i < n := by
            have : sizeOf i < sizeOf (JsVal.inst true i) := by simp_arith
            omega
          simp [canonVal, (ih (sizeOf i) hsz).2.2 i (le_refl _)]
      | null => simp [canonVal]
      | undefined => simp [canonVal]
      | str s => simp [canonVal]
      | bool b => simp [canonVal]
      | date d => simp [canonVal]
      | buf => simp [canonVal]
      | arr xs => simp [canonVal]
      | obj es => simp [canonVal]
    · intro s vs hvs
      cases vs with
      | nil => simp [canonVals]
      | cons p rest =>
        obtain ⟨k, v⟩ := p
        have hszv : sizeOf v < n := by
          have : sizeOf v < sizeOf ((k, v) :: rest) := by simp_arith
          omega
        have hszr : sizeOf rest < n := by
          have : sizeOf rest < sizeOf ((k, v) :: rest) := by simp_arith
          omega
        simp [canonVals, (ih (sizeOf v) hszv).1 (typeLookup s k) v (le_refl _),
          (ih (sizeOf rest) hszr).2.1 s rest (le_refl _)]
    · intro i hi
      cases i with
      | mk s vs own =>
        have hsz : sizeOf vs < n := by
          have : sizeOf vs < sizeOf (Inst.mk s vs own) := by simp_arith
          omega
        simp [canonInst, (ih (sizeOf vs) hsz).2.1 s vs (le_refl _)]

/-- C6: `canonicalize()` is idempotent — a second call leaves every value
 (recursively, embedded documents included) unchanged: numeric timestamps
 in date-typed fields became dates on the first call and are no longer
 numbers on the second. -/
theorem canonicalize_idem (i : Inst) : canonInst (canonInst i) = canonInst i :=
  (canon_idem_aux (sizeOf i)).2.2 i (le_refl _)

/-! ### Instantiation and serialization: `generateSchema` (lines 130-154),
 `getDefault` (lines 402-412), `toJSON` (lines 414-439). -/

/-- `getDefault(schemaProp)`: the declared default when the schema entry
 carries one (a factory default is modelled by the value it produces),
 else `null` for `_id`, else `undefined`. -/
def getDefault (i : Inst) (k : String) : JsVal :=
  match lookupKey i.schema k with
  | some e =>
    match e.dflt with
    | some d => d
    | none => if k = "_id" then .null else .undefined
  | none => if k = "_id" then .null else .undefined

/-- `_.startsWith(k, '_')` (line 135): the name's first character is an
 underscore. -/
def startsWithUnderscore (k : String) : Bool :=
  match k.data with
  | [] => false
  | c :: _ => c = '_'

/-- One `generateSchema` step for one declared field (lines 133-153): skip
 underscore names; otherwise normalize the declaration into the schema map
 and assign the computed default into the values map — for an array-typed
 field, a falsy default is replaced by a fresh empty array
 (`this.getDefault(k) || []`, line 144; the schema entry is already in
 place when `getDefault` runs, line 140 precedes line 143). -/
def genStep (acc : Inst) (kd : String × SchemaEntry) : Inst :=
  if startsWithUnderscore kd.1 then acc
  else
    let s' := setKey acc.schema kd.1 kd.2
    let d := getDefault (.mk s' acc.values acc.own) kd.1
    if isArrayT kd.2.type then
      .mk s' (setKey acc.values kd.1 (if jsTruthy d then d else .arr [])) acc.own
    else
      .mk s' (setKey acc.values kd.1 d) acc.own

/-- `generateSchema()`: scan the constructor's field declarations in
 order. -/
def generateSchema (decls : List (String × SchemaEntry)) (i : Inst) : Inst :=
  decls.foldl genStep i

/-- What `getDefault` yields right after the entry was installed. -/
def computedDefault (e : SchemaEntry) (k : String) : JsVal :=
  match e.dflt with
  | some d => d
  | none => if k = "_id" then .null else .undefined

/-- The value `generateSchema` stores for a declared field. -/
def declStored (k : String) (e : SchemaEntry) : JsVal :=
  if isArrayT e.type then
    (if jsTruthy (computedDefault e k) then computedDefault e k else .arr [])
  else computedDefault e k

theorem genStep_eq (acc : Inst) (kd : String × SchemaEntry)
    (hu : ¬ startsWithUnderscore kd.1 = true) :
    genStep acc kd = Inst.mk (setKey acc.schema kd.1 kd.2)
      (setKey acc.values kd.1 (declStored kd.1 kd.2)) acc.own := by
  have hd : getDefault
      (Inst.mk (setKey acc.schema kd.1 kd.2) acc.values acc.own) kd.1 =
      computedDefault kd.2 kd.1 := by
    rw [getDefault, Inst.schema, lookupKey_setKey_self, computedDefault]
  rw [genStep, if_neg hu]
  by_cases ha : isArrayT kd.2.type = true <;> simp [hd, declStored, ha]

/-- The constructor's initial state (lines 75-80): `_schema` holds only the
 implicit `_id` entry, `_values` is empty.  Ordinary own properties exist
 for the raw declarations, which the schema map supersedes for every
 modelled access; they are left empty here. -/
def baseInst : Inst := .mk [("_id", idEntry)] [] []

/-- `Model.create()` with no data = `_instantiate()`: construct, generate
 the schema, and proxy (the proxy is behaviour, not state). -/
def createEmpty (decls : List (String × SchemaEntry)) : Inst :=
  generateSchema decls baseInst

/-- `typeof values[key] === 'undefined'` (line 421): the key is absent or
 holds `undefined`. -/
def undefinedAt (vs : List (String × JsVal)) (k : String) : Bool :=
  match lookupKey vs k with
  | none => true
  | some .undefined => true
  | some _ => false

/-- The schema walk of `toJSON` (lines 417-429): a private field is deleted
 from the output; a field whose stored value is undefined is replaced by
 `[]` when its declaration is array-shaped (`schema[key] instanceof Array
 || schema[key].type instanceof Array`; the normalized entry itself is
 never an array, so only the type test can hold) and by `null` otherwise. -/
def toJSONPass : List (String × JsVal) → List (String × SchemaEntry) →
    List (String × JsVal)
  | vs, [] => vs
  | vs, (k, e) :: rest =>
    toJSONPass
      (if e.priv then eraseKey vs k
       else if undefinedAt vs k then
         setKey vs k (if isArrayT e.type then .arr [] else .null)
       else vs)
      rest

/-- The prototype walk of `toJSON` (lines 430-437): copy every own property
 of the instance's direct prototype except `constructor` and the `id`
 alias. -/
def protoPass : List (String × JsVal) → List (String × JsVal) →
    List (String × JsVal)
  | vs, [] => vs
  | vs, (k, v) :: rest =>
    protoPass (if k = "constructor" ∨ k = "id" then vs else setKey vs k v) rest

/-- `toJSON()`: shallow copy of the values map, then the schema walk, then
 the prototype walk (`protoProps` lists the prototype's own getter results,
 `['constructor']` alone — hence `[]` here — for a model class declaring
 only a constructor). -/
def toJSON (i : Inst) (protoProps : List (String × JsVal)) :
    List (String × JsVal) :=
  protoPass (toJSONPass i.values i.schema) protoProps

/-- Keys of an association list. -/
def keysOf {α : Type} (m : List (String × α)) : List String := m.map Prod.fst

theorem keysOf_setKey {α : Type} (m : List (String × α)) (k : String) (v : α) :
    keysOf (setKey m k v) =
      if k ∈ keysOf m then keysOf m else keysOf m ++ [k] := by
  induction m with
  | nil => simp [setKey, keysOf]
  | cons p rest ih =>
    obtain ⟨k'', v''⟩ := p
    by_cases h : k'' = k
    · subst h
      simp [setKey, keysOf]
    · rw [show setKey ((k'', v'') :: rest) k v = (k'', v'') :: setKey rest k v from by
          rw [setKey, if_neg h]]
      rw [show keysOf ((k'', v'') :: setKey rest k v) = k'' :: keysOf (setKey rest k v)
          from rfl, ih]
      have hmemc : (k ∈ keysOf ((k'', v'') :: rest)) ↔ (k ∈ keysOf rest) := by
        simp [keysOf, Ne.symm h]
      by_cases hm : k ∈ keysOf rest
      · rw [if_pos hm, if_pos (hmemc.mpr hm)]
        rfl
      · rw [if_neg hm, if_neg (fun hcon => hm (hmemc.mp hcon))]
        rfl

theorem nodup_keysOf_setKey {α : Type} (m : List (String × α)) (k : String) (v : α)
    (h : (keysOf m).Nodup) : (keysOf (setKey m k v)).Nodup := by
  rw [keysOf_setKey]
  by_cases hm : k ∈ keysOf m
  · rw [if_pos hm]
    exact h
  · rw [if_neg hm]
    rw [List.nodup_append]
    refine ⟨h, List.nodup_singleton k, ?_⟩
    intro a ha hak
    rw [List.mem_singleton] at hak
    exact hm (hak ▸ ha)

theorem lookupKey_of_not_mem_keys {α : Type} (m : List (String × α)) (k : String)
    (h : k ∉ keysOf m) : lookupKey m k = none := by
  induction m with
  | nil => rfl
  | cons p rest ih =>
    obtain ⟨k'', v''⟩ := p
    simp only [keysOf, List.map_cons, List.mem_cons] at h
    push_neg at h
    simp [lookupKey, Ne.symm h.1, ih (by simpa [keysOf] using h.2)]

/-- The schema of a generated instance has duplicate-free keys. -/
theorem generateSchema_keys_nodup (decls : List (String × SchemaEntry)) (i : Inst)
    (h : (keysOf i.schema).Nodup) :
    (keysOf (generateSchema decls i).schema).Nodup := by
  induction decls generalizing i with
  | nil => simpa [generateSchema]
  | cons kd rest ih =>
    rw [generateSchema, List.foldl_cons]
    refine ih (genStep i kd) ?_
    by_cases hu : startsWithUnderscore kd.1 = true
    · rw [genStep, if_pos hu]
      exact h
    · rw [genStep_eq i kd hu]
      exact nodup_keysOf_setKey _ _ _ h

theorem createEmpty_keys_nodup (decls : List (String × SchemaEntry)) :
    (keysOf (createEmpty decls).schema).Nodup := by
  refine generateSchema_keys_nodup decls baseInst ?_
  simp [baseInst, keysOf, Inst.schema]

/-- A toJSON schema walk over entries not mentioning `k` leaves the lookup
 of `k` unchanged. -/
theorem toJSONPass_lookup_not_mem (vs : List (String × JsVal))
    (sch : List (String × SchemaEntry)) (k : String) (h : k ∉ keysOf sch) :
    lookupKey (toJSONPass vs sch) k = lookupKey vs k := by
  induction sch generalizing vs with
  | nil => rfl
  | cons p rest ih =>
    obtain ⟨k', e'⟩ := p
    simp only [keysOf, List.map_cons, List.mem_cons] at h
    push_neg at h
    rw [toJSONPass, ih _ (by simpa [keysOf] using h.2)]
    by_cases hp : e'.priv = true
    · rw [if_pos hp]
      exact lookupKey_eraseKey_ne vs k' k h.1
    · rw [if_neg hp]
      by_cases hc : undefinedAt vs k' = true
      · rw [if_pos hc]
        exact lookupKey_setKey_ne vs k' k _ h.1
      · rw [if_neg hc]

/-- `undefinedAt` depends on the map only through the lookup at `k`. -/
theorem undefinedAt_congr (vs vs' : List (String × JsVal)) (k : String)
    (h : lookupKey vs' k = lookupKey vs k) :
    undefinedAt vs' k = undefinedAt vs k := by
  simp only [undefinedAt]
  rw [h]

/-- What the toJSON schema walk leaves under a schema key: nothing for a
 private field; the empty-array / null substitute for an undefined value;
 the stored value otherwise. -/
theorem toJSONPass_lookup (vs : List (String × JsVal))
    (sch : List (String × SchemaEntry)) (k : String) (e : SchemaEntry)
    (hnd : (keysOf sch).Nodup) (h : lookupKey sch k = some e) :
    lookupKey (toJSONPass vs sch) k =
      if e.priv then none
      else if undefinedAt vs k then
        some (if isArrayT e.type then .arr [] else .null)
      else lookupKey vs k := by
  induction sch generalizing vs with
  | nil => simp [lookupKey] at h
  | cons p rest ih =>
    obtain ⟨k', e'⟩ := p
    simp only [keysOf, List.map_cons, List.nodup_cons] at hnd
    by_cases hk : k' = k
    · subst hk
      rw [lookupKey, if_pos rfl] at h
      have he : e' = e := Option.some.inj h
      subst he
      rw [toJSONPass]
      by_cases hp : e'.priv = true
      · rw [if_pos hp, if_pos hp,
          toJSONPass_lookup_not_mem _ _ _ (by simpa [keysOf] using hnd.1),
          lookupKey_eraseKey_self]
      · rw [if_neg hp, if_neg hp]
        by_cases hc : undefinedAt vs k' = true
        · rw [if_pos hc, if_pos hc,
            toJSONPass_lookup_not_mem _ _ _ (by simpa [keysOf] using hnd.1),
            lookupKey_setKey_self]
        · rw [if_neg hc, if_neg hc,
            toJSONPass_lookup_not_mem _ _ _ (by simpa [keysOf] using hnd.1)]
    · rw [lookupKey, if_neg hk] at h
      rw [toJSONPass]
      by_cases hp : e'.priv = true
      · rw [if_pos hp, ih _ hnd.2 h,
          undefinedAt_congr vs _ k (lookupKey_eraseKey_ne vs k' k (Ne.symm hk)),
          lookupKey_eraseKey_ne vs k' k (Ne.symm hk)]
      · rw [if_neg hp]
        by_cases hc : undefinedAt vs k' = true
        · rw [if_pos hc, ih _ hnd.2 h,
            undefinedAt_congr vs _ k
              (lookupKey_setKey_ne vs k' k _ (Ne.symm hk)),
            lookupKey_setKey_ne vs k' k _ (Ne.symm hk)]
        · rw [if_neg hc, ih _ hnd.2 h]

/-- Where each value of a generated instance comes from: untouched base
 state for keys no declaration set, the computed stored default for keys a
 declaration set (the last declaration for the key fixes both the schema
 entry and the stored value). -/
theorem generateSchema_cons (kd : String × SchemaEntry)
    (decls : List (String × SchemaEntry)) (i : Inst) :
    generateSchema (kd :: decls) i = generateSchema decls (genStep i kd) := by
  rw [generateSchema, List.foldl_cons]
  rfl

theorem generateSchema_stored (decls : List (String × SchemaEntry)) (i : Inst)
    (k : String) (e : SchemaEntry)
    (h : lookupKey (generateSchema decls i).schema k = some e) :
    (lookupKey i.schema k = some e ∧
      lookupKey (generateSchema decls i).values k = lookupKey i.values k) ∨
    lookupKey (generateSchema decls i).values k = some (declStored k e) := by
  induction decls generalizing i with
  | nil =>
    left
    constructor
    · simpa [generateSchema] using h
    · simp [generateSchema]
  | cons kd rest ih =>
    rw [generateSchema_cons] at h ⊢
    by_cases hu : startsWithUnderscore kd.1 = true
    · have hg : genStep i kd = i := by rw [genStep, if_pos hu]
      rw [hg] at h ⊢
      exact ih i h
    · rw [genStep_eq i kd hu] at h ⊢
      rcases ih _ h with ⟨h1, h2⟩ | h2
      · simp only [Inst.schema_mk, Inst.values_mk] at h1 h2
        by_cases hk : k = kd.1
        · subst hk
          rw [lookupKey_setKey_self] at h1
          have he : kd.2 = e := Option.some.inj h1
          right
          rw [h2, lookupKey_setKey_self, ← he]
        · left
          constructor
          · rw [lookupKey_setKey_ne _ _ _ _ hk] at h1
            exact h1
          · rw [h2, lookupKey_setKey_ne _ _ _ _ hk]
      · right
        exact h2

/-- C5: `create()` with no data followed immediately by `toJSON()` yields
 an output in which every private schema field is omitted entirely, every
 non-private schema field is present with a defined (non-undefined) value,
 a non-private field whose stored value is undefined surfaces as the empty
 array when its type is array-shaped and as null otherwise, and in
 particular every non-private field declared without a default surfaces
 exactly as the empty array (array-shaped type) or null. -/
theorem create_toJSON (decls : List (String × SchemaEntry)) (k : String)
    (e : SchemaEntry) (h : lookupKey (createEmpty decls).schema k = some e) :
    (e.priv = true → lookupKey (toJSON (createEmpty decls) []) k = none) ∧
    (e.priv = false →
      (undefinedAt (createEmpty decls).values k = true →
        lookupKey (toJSON (createEmpty decls) []) k =
          some (if isArrayT e.type then .arr [] else .null)) ∧
      ∃ v, lookupKey (toJSON (createEmpty decls) []) k = some v ∧ v ≠ .undefined) ∧
    (e.priv = false → e.dflt = none →
      lookupKey (toJSON (createEmpty decls) []) k =
        some (if isArrayT e.type then .arr [] else .null)) := by
  have hnd := createEmpty_keys_nodup decls
  have hmain := toJSONPass_lookup (createEmpty decls).values
    (createEmpty decls).schema k e hnd h
  have hout : lookupKey (toJSON (createEmpty decls) []) k =
      lookupKey (toJSONPass (createEmpty decls).values (createEmpty decls).schema) k := by
    rw [toJSON, protoPass]
  refine ⟨?_, ?_, ?_⟩
  · intro hp
    rw [hout, hmain, if_pos hp]
  · intro hp
    constructor
    · intro hc
      rw [hout, hmain, if_neg (by simp [hp]), if_pos hc]
    · by_cases hc : undefinedAt (createEmpty decls).values k = true
      · refine ⟨if isArrayT e.type then .arr [] else .null, ?_, ?_⟩
        · rw [hout, hmain, if_neg (by simp [hp]), if_pos hc]
        · by_cases ha : isArrayT e.type = true
          · rw [if_pos ha]
            intro hcon
            cases hcon
          · rw [if_neg ha]
            intro hcon
            cases hcon
      · have hlk : ∃ v, lookupKey (createEmpty decls).values k = some v ∧ v ≠ JsVal.undefined := by
          rcases hlook : lookupKey (createEmpty decls).values k with _ | v
          · rw [undefinedAt, hlook] at hc
            simp at hc
          · refine ⟨v, rfl, ?_⟩
            intro hv
            rw [undefinedAt, hlook, hv] at hc
            simp at hc
        rcases hlk with ⟨v, hv, hne⟩
        refine ⟨v, ?_, hne⟩
        rw [hout, hmain, if_neg (by simp [hp]), if_neg hc, hv]
  · intro hp hd
    have hsch : lookupKey (generateSchema decls baseInst).schema k = some e := by
      rw [← createEmpty]
      exact h
    rcases generateSchema_stored decls baseInst k e hsch with ⟨h1, h2⟩ | h2
    · have hk : k = "_id" ∧ e = idEntry := by
        rw [baseInst, Inst.schema_mk, lookupKey] at h1
        by_cases hid : "_id" = k
        · rw [if_pos hid] at h1
          exact ⟨hid.symm, (Option.some.inj h1).symm⟩
        · rw [if_neg hid, lookupKey] at h1
          cases h1
      have hval : lookupKey (createEmpty decls).values k = none := by
        rw [createEmpty, h2, baseInst, Inst.values_mk, lookupKey]
      have hund : undefinedAt (createEmpty decls).values k = true := by
        rw [undefinedAt, hval]
      rw [hout, hmain, if_neg (by simp [hp]), if_pos hund]
    · have h2' : lookupKey (createEmpty decls).values k = some (declStored k e) := by
        rw [createEmpty]
        exact h2
      have hdecl : declStored k e =
          if isArrayT e.type then JsVal.arr [] else (if k = "_id" then JsVal.null else JsVal.undefined) := by
        rw [declStored, computedDefault, hd]
        by_cases ha : isArrayT e.type = true
        · rw [if_pos ha, if_pos ha]
          by_cases hid : k = "_id"
          · rw [if_pos hid]
            rfl
          · rw [if_neg hid]
            rfl
        · rw [if_neg ha, if_neg ha]
      by_cases ha : isArrayT e.type = true
      · rw [if_pos ha] at hdecl
        have hund : undefinedAt (createEmpty decls).values k = false := by
          rw [undefinedAt, h2', hdecl]
        rw [hout, hmain, if_neg (by simp [hp]), if_neg (by simp [hund]), h2', hdecl,
          if_pos ha]
      · rw [if_neg ha] at hdecl
        by_cases hid : k = "_id"
        · rw [if_pos hid] at hdecl
          have hund : undefinedAt (createEmpty decls).values k = false := by
            rw [undefinedAt, h2', hdecl]
          rw [hout, hmain, if_neg (by simp [hp]), if_neg (by simp [hund]), h2', hdecl,
            if_neg ha]
        · rw [if_neg hid] at hdecl
          have hund : undefinedAt (createEmpty decls).values k = true := by
            rw [undefinedAt, h2', hdecl]
          rw [hout, hmain, if_neg (by simp [hp]), if_pos hund]

/-- Example declarations: a plain string field, a defaultless array field,
 and a private string field. -/
def noteE : SchemaEntry := .mk .str none none none none none none false

def tagsE : SchemaEntry := .mk (.arrayOf .str) none none none none none none false

def secretE : SchemaEntry := .mk .str none none none none none none true

def egDecls : List (String × SchemaEntry) :=
  [("note", noteE), ("tags", tagsE), ("secret", secretE)]

/-- Closed instantiation of `create_toJSON`: the defaultless string field
 surfaces as null, the defaultless array field as the empty array, the
 private field is omitted. -/
theorem create_toJSON_witness :
    lookupKey (toJSON (createEmpty egDecls) []) "note" = some JsVal.null ∧
    lookupKey (toJSON (createEmpty egDecls) []) "tags" = some (JsVal.arr []) ∧
    lookupKey (toJSON (createEmpty egDecls) []) "secret" = none :=
  ⟨(create_toJSON egDecls "note" noteE (by rfl)).2.2 rfl rfl,
   (create_toJSON egDecls "tags" tagsE (by rfl)).2.2 rfl rfl,
   (create_toJSON egDecls "secret" secretE (by rfl)).1 rfl⟩

/-! ### `fill` (lines 270-318). -/

/-- `typeof value === 'object'` on the modelled values (note JS quirk:
 `typeof null` is `'object'`, though `fill` tests null earlier). -/
def typeofObject : JsVal → Bool
  | .null => true
  | .obj _ => true
  | .arr _ => true
  | .date _ => true
  | .buf => true
  | .inst _ _ => true
  | _ => false

/-- The value is neither `null` nor `undefined`. -/
def isNotNullish : JsVal → Bool
  | .null => false
  | .undefined => false
  | _ => true

/-- The bare-native-id branch of `fill` (lines 275-278): only
 `_values._id` is assigned, nothing else is touched. -/
def setIdOnly (i : Inst) (v : JsVal) : Inst :=
  .mk i.schema (setKey i.values "_id" v) i.own

mutual
/-- `fill(newValues)` (lines 270-318): `null`/`undefined` return the
 instance untouched; a value matching the backend's id shape sets only the
 internal id; otherwise the keys of `newValues` are walked in order.  A JS
 object contributes its entries; any other payload has no own enumerable
 keys to walk and leaves the instance unchanged (the index keys lodash
 would report for a string payload are not modelled — such a payload is
 either a native id, caught earlier, or pathological). -/
def fill (ctx : Ctx) (inst : Inst) : JsVal → Inst
  | .null => inst
  | .undefined => inst
  | .obj entries =>
    if ctx.isNativeId (.obj entries) then setIdOnly inst (.obj entries)
    else fillEntries ctx inst entries
  | .num n => if ctx.isNativeId (.num n) then setIdOnly inst (.num n) else inst
  | .str s => if ctx.isNativeId (.str s) then setIdOnly inst (.str s) else inst
  | .bool b => if ctx.isNativeId (.bool b) then setIdOnly inst (.bool b) else inst
  | .date d => if ctx.isNativeId (.date d) then setIdOnly inst (.date d) else inst
  | .buf => if ctx.isNativeId .buf then setIdOnly inst .buf else inst
  | .arr xs => if ctx.isNativeId (.arr xs) then setIdOnly inst (.arr xs) else inst
  | .inst b i => if ctx.isNativeId (.inst b i) then setIdOnly inst (.inst b i) else inst
  termination_by v => (sizeOf v, 0)

/-- The `_.keys(newValues).forEach` loop; the guard at lines 282-286 is
 dead code (every walked key is a key of `newValues`), so each step
 processes the entry's own value. -/
def fillEntries (ctx : Ctx) (inst : Inst) : List (String × JsVal) → Inst
  | [] => inst
  | (k, v) :: rest => fillEntries ctx (fillKey ctx inst k v) rest
  termination_by l => (sizeOf l, 0)

/-- One loop step (lines 291-315): a schema key takes the reference branch
 when its (element) type is a Document/EmbeddedDocument subtype, the
 id-coercion branch for `_id`/`id`, and a plain assignment otherwise; a
 non-schema key falls through the proxy `set` trap — `id` aliases to
 `_values._id`, a name visible on the instance (own property or prototype)
 becomes/updates an ordinary own property, anything else is skipped. -/
def fillKey (ctx : Ctx) (inst : Inst) (k : String) (v : JsVal) : Inst :=
  match lookupKey inst.schema k with
  | some e =>
    match (match e.type with | .arrayOf t0 => t0 | t => t) with
    | .docT c => fillRef ctx inst k v c
    | .embT c => fillRef ctx inst k v c
    | _ =>
      if k = "_id" ∨ k = "id" then
        .mk inst.schema (setKey inst.values k (ctx.toNativeId v)) inst.own
      else
        .mk inst.schema (setKey inst.values k v) inst.own
  | none =>
    if k = "id" then .mk inst.schema (setKey inst.values "_id" v) inst.own
    else if ctx.protoHas k || (lookupKey inst.own k).isSome then
      .mk inst.schema inst.values (setKey inst.own k v)
    else inst
  termination_by (sizeOf v, 4)

/-- The reference-typed branch (lines 298-307): `null`/`undefined` pass
 through; an already-instantiated stored value is filled recursively in
 place; raw object data (not a native id) is expanded into a fresh
 instance of the referenced class; anything else (a bare id) is stored
 as-is. -/
def fillRef (ctx : Ctx) (inst : Inst) (k : String) (v : JsVal) (c : Nat) : Inst :=
  match v with
  | .null => .mk inst.schema (setKey inst.values k .null) inst.own
  | .undefined => .mk inst.schema (setKey inst.values k .undefined) inst.own
  | v =>
    match lookupKey inst.values k with
    | some (.inst b j) =>
      .mk inst.schema (setKey inst.values k (.inst b (fill ctx j v))) inst.own
    | _ =>
      if typeofObject v && !(ctx.isNativeId v) then
        .mk inst.schema (setKey inst.values k (fromData ctx c v)) inst.own
      else
        .mk inst.schema (setKey inst.values k v) inst.own
  termination_by (sizeOf v, 3)

/-- `_fromData(datas)` (lines 254-259): an array payload yields one
 instance per element, in order. -/
def fromData (ctx : Ctx) (c : Nat) : JsVal → JsVal
  | .arr xs => .arr (fromDataList ctx c xs)
  | v => fromDataSingle ctx c v
  termination_by v => (sizeOf v, 2)

def fromDataList (ctx : Ctx) (c : Nat) : List JsVal → List JsVal
  | [] => []
  | x :: xs => fromDataSingle ctx c x :: fromDataList ctx c xs
  termination_by l => (sizeOf l, 0)

/-- `_fromDataSingle(d)` (lines 261-264): instantiate the class and fill
 with the raw data. -/
def fromDataSingle (ctx : Ctx) (c : Nat) (v : JsVal) : JsVal :=
  .inst (ctx.embCls c) (fill ctx (generateSchema (ctx.classes c) baseInst) v)
  termination_by (sizeOf v, 1)
end

/-- C9: `fill(null)` and `fill(undefined)` return the instance with the
 schema map, the values map and the ordinary properties all untouched — no
 field is written and no default is recomputed (line 272's early return
 precedes the whole loop). -/
theorem fill_nullish_noop (ctx : Ctx) (i : Inst) :
    fill ctx i .null = i ∧ fill ctx i .undefined = i := by
  constructor <;> simp [fill]

/-- C8: `fill(v)` on a bare native id (the backend's `isNativeId(v)` holds,
 and `v` is not the separately handled `null`/`undefined`) assigns only the
 internal `_id` value, leaves every other field of the values map — and the
 schema and ordinary properties — unchanged, and returns the instance. -/
theorem fill_native_id (ctx : Ctx) (i : Inst) (v : JsVal)
    (h1 : isNotNullish v = true) (h2 : ctx.isNativeId v = true) :
    fill ctx i v = Inst.mk i.schema (setKey i.values "_id" v) i.own ∧
    ∀ k, k ≠ "_id" → lookupKey (fill ctx i v).values k = lookupKey i.values k := by
  have hf : fill ctx i v = setIdOnly i v := by
    cases v
    case null => simp [isNotNullish] at h1
    case undefined => simp [isNotNullish] at h1
    all_goals simp [fill, h2]
  constructor
  · rw [hf]
    rfl
  · intro k hk
    rw [hf]
    show lookupKey (setKey i.values "_id" v) k = lookupKey i.values k
    exact lookupKey_setKey_ne _ _ _ _ hk

/-- A backend whose native id shape is "any string". -/
def ctxStrId : Ctx := { ctxTriv with isNativeId := fun v => isStringV v }

theorem fill_native_id_witness :
    fill ctxStrId (Inst.mk [("_id", idEntry)] [("a", JsVal.num 1)] []) (.str "abc") =
      Inst.mk [("_id", idEntry)] (setKey [("a", JsVal.num 1)] "_id" (.str "abc")) [] :=
  (fill_native_id ctxStrId (Inst.mk [("_id", idEntry)] [("a", JsVal.num 1)] [])
    (.str "abc") rfl rfl).1

/-! ### The proxy `deleteProperty` trap (lines 63-67). -/

/-- `deleteProperty`: delete the key from the schema map and from the
 values map, leave the target's ordinary own properties alone, and report
 success unconditionally. -/
def deleteProperty (t : Inst) (k : String) : Bool × Inst :=
  (true, .mk (eraseKey t.schema k) (eraseKey t.values k) t.own)

/-- C10: the delete trap reports success for every key; a schema-declared
 key is removed from both the schema map and the values map; every other
 key of either map is untouched; the ordinary own properties are never
 touched (no fall-through to an ordinary deletion); and deleting a name
 found in neither map leaves the whole target unchanged — a silent no-op
 that still reports success. -/
theorem delete_trap (t : Inst) (k : String) :
    (deleteProperty t k).1 = true ∧
    ((deleteProperty t k).2).own = t.own ∧
    lookupKey ((deleteProperty t k).2).schema k = none ∧
    lookupKey ((deleteProperty t k).2).values k = none ∧
    (∀ k', k' ≠ k →
      lookupKey ((deleteProperty t k).2).schema k' = lookupKey t.schema k' ∧
      lookupKey ((deleteProperty t k).2).values k' = lookupKey t.values k') ∧
    (lookupKey t.schema k = none → lookupKey t.values k = none →
      (deleteProperty t k).2 = t) := by
  obtain ⟨s, vs, own⟩ := t
  refine ⟨rfl, rfl, lookupKey_eraseKey_self _ _, lookupKey_eraseKey_self _ _,
    fun k' hk => ⟨lookupKey_eraseKey_ne _ _ _ hk, lookupKey_eraseKey_ne _ _ _ hk⟩,
    fun h1 h2 => ?_⟩
  show Inst.mk (eraseKey s k) (eraseKey vs k) own = Inst.mk s vs own
  rw [eraseKey_of_lookup_none s k h1, eraseKey_of_lookup_none vs k h2]

theorem delete_trap_witness :
    (deleteProperty (Inst.mk [] [] [("x", JsVal.num 2)]) "zzz").2 =
      Inst.mk [] [] [("x", JsVal.num 2)] ∧
    (deleteProperty (Inst.mk [] [] [("x", JsVal.num 2)]) "zzz").1 = true :=
  ⟨(delete_trap (Inst.mk [] [] [("x", JsVal.num 2)]) "zzz").2.2.2.2.2 rfl rfl,
   (delete_trap (Inst.mk [] [] [("x", JsVal.num 2)]) "zzz").1⟩

end Camouflage